import Mathlib

/-!
# VaultMind incremental change-propagation pipeline — verification model

Shallow embedding of `src/vaultmind/vault/events.py` (typed events and the
`VaultEventBus`) and `src/vaultmind/vault/watch_handler.py`
(`IncrementalWatchHandler`: debounced change processing with hash-stability
checks, deletion handling, and batched graph re-extraction).

Modelling conventions:
* Paths are strings.  Content fingerprints (`_file_content_hash`: sha-256
  truncated to 16 hex chars) are abstracted to natural numbers compared for
  equality — the handler only ever branches on fingerprint equality and on
  file existence/readability.
* The asyncio loop is modelled by explicit timer records: `loop.call_later`
  yields a `Timer` with a due time (milliseconds as naturals) and a fresh
  handle id; `TimerHandle.cancel` records the id together with the time of
  cancellation.  A handle cancelled strictly before its due time never runs
  its callback, so the timers that can fire are exactly the uncancelled ones.
* External collaborators (parser, vector store, entity extractor) are
  modelled by per-cycle environments recording the outcome of each call;
  calls that may raise return `Except`.
* Python dicts become association lists, Python sets become duplicate-free
  insertion-ordered lists; subscriber callbacks are identified by ids whose
  behaviour is given by an environment function.
-/

namespace VaultMind

/-- Outcome of reading a file from disk at one instant: the path may be
absent (`path.exists()` is false, or it vanished mid-read), unreadable
(`OSError` from `read_bytes`), or present with some content fingerprint. -/
inductive FileRead where
  | absent
  | unreadable
  | content (hash : Nat)
deriving DecidableEq, Repr

/-- Association-list lookup (Python `dict.get`). -/
def alookup {α : Type} : List (String × α) → String → Option α
  | [], _ => none
  | (k, v) :: rest, key => if k = key then some v else alookup rest key

/-- Association-list key removal (Python `dict.pop(k, None)`). -/
def aerase {α : Type} (l : List (String × α)) (k : String) : List (String × α) :=
  l.filter (fun kv => kv.1 ≠ k)

/-- Association-list update (Python `dict[k] = v`). -/
def ainsert {α : Type} (l : List (String × α)) (k : String) (v : α) : List (String × α) :=
  aerase l k ++ [(k, v)]

/-- Python `set.add`: insertion-ordered duplicate-free list. -/
def insertSet (l : List String) (p : String) : List String :=
  if p ∈ l then l else l ++ [p]

/-! ## Event model (`events.py` lines 31–64)

`NoteCreatedEvent` / `NoteModifiedEvent` carry the parsed note and the chunk
count; `NoteDeletedEvent` carries only the path.  The emission timestamp
(`field(default_factory=time)`) plays no role in any dispatch decision and is
elided; parsed notes are abstracted to ids. -/

/-- The three concrete event classes, used as the bus dispatch key
(`type(event)` in `events.py` line 112). -/
inductive EKind where
  | createdK
  | modifiedK
  | deletedK
deriving DecidableEq, Repr

/-- Immutable vault change events (frozen dataclasses). -/
inductive VEvent where
  | created (path : String) (note : Nat) (chunks : Nat)
  | modified (path : String) (note : Nat) (chunks : Nat)
  | deleted (path : String)
deriving DecidableEq, Repr

/-- Runtime type of an event — the bus dispatch key. -/
def VEvent.kind : VEvent → EKind
  | .created _ _ _ => .createdK
  | .modified _ _ _ => .modifiedK
  | .deleted _ => .deletedK

/-! ## Event bus (`events.py` lines 72–130)

Callbacks are ids; their behaviour (return normally, or raise) is an
environment `Nat → VEvent → Except String Unit`.  Python `list.remove`
compares by `==`, which for function objects is identity — matching id
equality here. -/

/-- `VaultEventBus._subscribers`: event type → ordered callback list. -/
structure VaultEventBus where
  subscribers : EKind → List Nat

/-- Fresh bus (`VaultEventBus.__init__`). -/
def emptyBus : VaultEventBus := ⟨fun _ => []⟩

/-- `VaultEventBus.subscribe`: `setdefault(event_type, []).append(callback)`. -/
def subscribe (bus : VaultEventBus) (k : EKind) (cb : Nat) : VaultEventBus :=
  ⟨fun k' => if k' = k then bus.subscribers k' ++ [cb] else bus.subscribers k'⟩

/-- `VaultEventBus.unsubscribe`: remove the first matching registration; the
`ValueError` from an absent callback is suppressed (`contextlib.suppress`),
and when the type has no entry, `get(event_type, [])` mutates a fresh list,
leaving the table untouched. -/
def unsubscribe (bus : VaultEventBus) (k : EKind) (cb : Nat) : VaultEventBus :=
  ⟨fun k' => if k' = k then (bus.subscribers k').erase cb else bus.subscribers k'⟩

/-- Repeated registration of the same callback (k calls to `subscribe`). -/
def subscribeTimes (bus : VaultEventBus) (k : EKind) (cb : Nat) : Nat → VaultEventBus
  | 0 => bus
  | Nat.succ n => subscribe (subscribeTimes bus k cb n) k cb

/-- `_safe_call` (`events.py` lines 116–124): await the callback, catching
any `Exception` (logged via `logger.exception`, then dropped). -/
def safeCall (env : Nat → VEvent → Except String Unit) (cb : Nat) (e : VEvent) :
    Except String Unit :=
  match env cb e with
  | .ok _ => .ok ()
  | .error _ => .ok ()

/-- `asyncio.gather` over already-run coroutine results: the first error
propagates to the awaiter, otherwise it completes normally. -/
def gatherExc : List (Except String Unit) → Except String Unit
  | [] => .ok ()
  | .error m :: _ => .error m
  | .ok _ :: rest => gatherExc rest

/-- Observable outcome of one `publish` call: the callbacks invoked in
order, each with its raw outcome, plus what `publish` itself returns to its
caller. -/
structure PublishOut where
  invoked : List (Nat × Except String Unit)
  result : Except String Unit
deriving Repr

/-- `VaultEventBus.publish` (lines 106–126): look up the subscribers for the
event's concrete type; if none, return immediately; otherwise gather
`_safe_call(cb)` for every subscriber. -/
def publish (env : Nat → VEvent → Except String Unit) (bus : VaultEventBus)
    (e : VEvent) : PublishOut :=
  let subs := bus.subscribers e.kind
  if subs.isEmpty then ⟨[], .ok ()⟩
  else
    ⟨subs.map (fun cb => (cb, env cb e)),
     gatherExc (subs.map (fun cb => safeCall env cb e))⟩

/-! ## Watch configuration (`config.py` lines 118–121) -/

/-- `WatchConfig` fields consumed by the handler. -/
structure WatchConfig where
  debounce_ms : Nat
  hash_stability_check : Bool
  reextract_graph : Bool
  batch_graph_interval_seconds : Nat
deriving Repr

/-- Defaults declared in `config.py`. -/
def defaultWatchConfig : WatchConfig := ⟨500, true, false, 300⟩

/-! ## Incremental watch handler — per-cycle processing
(`watch_handler.py` lines 144–239)

The handler state holds the per-path debounce handles (`self._pending`), the
last-recorded content hash per path (`self._hash_cache`), and the pending
graph re-extraction set (`self._graph_pending`); `self._graph_timer` lives
in the batch-scheduler model below, which owns the timer mechanics. -/

/-- Mutable attributes of `IncrementalWatchHandler` touched by a cycle. -/
structure HState where
  pending : List (String × Nat)
  hashCache : List (String × Nat)
  graphPending : List String
deriving Repr

/-- Event-type strings handled by `handle_change`. -/
inductive EType where
  | created
  | modified
  | deleted
deriving DecidableEq, Repr

/-- One debounce cycle's external world: the file read when the deferred
call fires (`read1`), the re-read after the stability sleep (`read2`, only
consulted on the stability path), and the parser/store outcomes. -/
structure CycleEnv where
  read1 : FileRead
  read2 : FileRead
  parseRes : Except Unit Nat
  indexRes : Except Unit Nat

/-- Observable effects of one `_process_change` invocation: the notes passed
to `store.index_single_note` (the call is recorded even when it raises), the
events handed to `event_bus.publish`, and whether the cycle re-invoked
`handle_change` (the hash-unstable re-debounce at line 180). -/
structure CycleOut where
  indexCalls : List Nat
  published : List VEvent
  redebounced : Bool
deriving Repr

/-- A cycle that indexes nothing, publishes nothing, re-debounces nothing. -/
def CycleOut.silent : CycleOut := ⟨[], [], false⟩

/-- Lines 189–218 of `_process_change`, from the comment "Hash is stable and
differs from last indexed — proceed": record the hash, parse (abandon on
failure), index (abandon on failure), publish the typed event (`created` ↦
`NoteCreatedEvent`, anything else ↦ `NoteModifiedEvent`), then enqueue the
path for graph re-extraction when configured. -/
def settleCycle (cfg : WatchConfig) (hasGraph hasExtractor : Bool) (env : CycleEnv)
    (st : HState) (path : String) (et : EType) (currentHash : Nat) :
    HState × CycleOut :=
  let st := { st with hashCache := ainsert st.hashCache path currentHash }
  match env.parseRes with
  | .error _ => (st, CycleOut.silent)
  | .ok note =>
    match env.indexRes with
    | .error _ => (st, { CycleOut.silent with indexCalls := [note] })
    | .ok chunks =>
      let ev := if et = EType.created then VEvent.created path note chunks
                else VEvent.modified path note chunks
      let out : CycleOut := ⟨[note], [ev], false⟩
      if cfg.reextract_graph && hasExtractor && hasGraph then
        ({ st with graphPending := insertSet st.graphPending path }, out)
      else (st, out)

/-- `IncrementalWatchHandler._process_change` (lines 144–218).  Pops the
pending handle, abandons silently when the file is absent or unreadable,
then: with `hash_stability_check` on, a hash differing from the cached one
is recorded as candidate, the cycle sleeps `debounce_ms` and re-reads —
vanished/unreadable abandons, a differing re-read re-debounces, a matching
re-read settles; a hash equal to the cached one falls through directly to
the settle stage.  With the check off, a hash equal to the cached one is
skipped, otherwise the cycle settles. -/
def processChange (cfg : WatchConfig) (hasGraph hasExtractor : Bool) (env : CycleEnv)
    (st : HState) (path : String) (et : EType) : HState × CycleOut :=
  let st := { st with pending := aerase st.pending path }
  match env.read1 with
  | .absent => (st, CycleOut.silent)
  | .unreadable => (st, CycleOut.silent)
  | .content currentHash =>
    if cfg.hash_stability_check then
      if alookup st.hashCache path ≠ some currentHash then
        let st := { st with hashCache := ainsert st.hashCache path currentHash }
        match env.read2 with
        | .absent => (st, CycleOut.silent)
        | .unreadable => (st, CycleOut.silent)
        | .content recheckHash =>
          if recheckHash ≠ currentHash then
            (st, { CycleOut.silent with redebounced := true })
          else
            settleCycle cfg hasGraph hasExtractor env st path et currentHash
      else
        settleCycle cfg hasGraph hasExtractor env st path et currentHash
    else
      if alookup st.hashCache path = some currentHash then
        (st, CycleOut.silent)
      else
        settleCycle cfg hasGraph hasExtractor env st path et currentHash

/-- Outcome of `store.delete_note` for one deletion cycle. -/
structure DeleteEnv where
  deleteRes : Except Unit Unit

/-- Observable effects of one `_process_delete` invocation. -/
structure DeleteOut where
  deleteCalls : List String
  published : List VEvent
deriving Repr

/-- `IncrementalWatchHandler._process_delete` (lines 220–239): pop the
pending handle and the cached hash, call `store.delete_note` (the
relative-path string derivation is elided: the store key is the path), and
on success publish `NoteDeletedEvent`; on failure log and return without
publishing. -/
def processDelete (env : DeleteEnv) (st : HState) (path : String) :
    HState × DeleteOut :=
  let st := { st with pending := aerase st.pending path,
                      hashCache := aerase st.hashCache path }
  match env.deleteRes with
  | .error _ => (st, ⟨[path], []⟩)
  | .ok _ => (st, ⟨[path], [VEvent.deleted path]⟩)

/-! ## Debounce scheduling (`watch_handler.py` lines 102–128)

`handle_change` cancels the pending `TimerHandle` for the path (if any) and
schedules a fresh `loop.call_later(debounce_ms / 1000, callback)`, recording
the new handle in `self._pending`.  The source converts milliseconds to
seconds for `call_later`; the model keeps milliseconds throughout. -/

/-- Which deferred callback a timer will run. -/
inductive TimerKind where
  | change (et : EType)
  | del
deriving DecidableEq, Repr

/-- One `loop.call_later` handle. -/
structure Timer where
  id : Nat
  due : Nat
  path : String
  kind : TimerKind
deriving DecidableEq, Repr

/-- Handler state together with the loop's timers: every handle ever
created, the cancelled handle ids with their cancellation times, and the
fresh-id counter. -/
structure Sys where
  hstate : HState
  timers : List Timer
  cancelled : List (Nat × Nat)
  nextId : Nat
deriving Repr

/-- A fresh handler on a fresh loop. -/
def initSys : Sys := ⟨⟨[], [], []⟩, [], [], 0⟩

/-- Ids of all cancelled handles. -/
def cancelledIds (s : Sys) : List Nat := s.cancelled.map Prod.fst

/-- `IncrementalWatchHandler.handle_change` (lines 102–128): cancel any
pending handle for the path, then schedule the deletion callback or the
change callback after `debounce_ms`, and record the new handle. -/
def handleChange (cfg : WatchConfig) (s : Sys) (now : Nat) (path : String)
    (et : EType) : Sys :=
  let cancelled :=
    match alookup s.hstate.pending path with
    | some h => (h, now) :: s.cancelled
    | none => s.cancelled
  let tm : Timer :=
    ⟨s.nextId, now + cfg.debounce_ms, path,
     if et = EType.deleted then TimerKind.del else TimerKind.change et⟩
  { hstate := { s.hstate with pending := ainsert s.hstate.pending path s.nextId },
    timers := s.timers ++ [tm],
    cancelled := cancelled,
    nextId := s.nextId + 1 }

/-- A sequence of watcher notifications, each `(time, path, event_type)`. -/
def runCalls (cfg : WatchConfig) (s : Sys) (calls : List (Nat × String × EType)) :
    Sys :=
  calls.foldl (fun s c => handleChange cfg s c.1 c.2.1 c.2.2) s

/-- The timers that can still fire: asyncio never runs the callback of a
handle cancelled before its due time. -/
def activeTimers (s : Sys) : List Timer :=
  s.timers.filter (fun tm => ¬ tm.id ∈ cancelledIds s)

/-- Events published along the re-debounce chain started by one fired
change timer: each cycle either abandons, settles (publishing its events),
or re-debounces, in which case the next cycle runs against the next
environment.  `fuel` bounds the chain (the spec's termination argument —
an editor eventually stops writing). -/
def chainPublishCount (cfg : WatchConfig) (hasGraph hasExtractor : Bool)
    (envs : Nat → CycleEnv) (fuel : Nat) (st : HState) (path : String)
    (et : EType) : Nat :=
  match fuel with
  | 0 => 0
  | Nat.succ fuel' =>
    let r := processChange cfg hasGraph hasExtractor (envs 0) st path et
    if r.2.redebounced then
      chainPublishCount cfg hasGraph hasExtractor (fun n => envs (n + 1)) fuel'
        r.1 path et
    else
      r.2.published.length

/-- Events published by firing one timer (a delete cycle, or a change
cycle's full re-debounce chain). -/
def timerPublishCount (cfg : WatchConfig) (hasGraph hasExtractor : Bool)
    (envs : Nat → CycleEnv) (denv : DeleteEnv) (fuel : Nat) (st : HState)
    (tm : Timer) : Nat :=
  match tm.kind with
  | .del => ((processDelete denv st tm.path).2.published).length
  | .change et => chainPublishCount cfg hasGraph hasExtractor envs fuel st tm.path et

/-- Total events published by firing every timer that survived
cancellation. -/
def cyclePublishTotal (cfg : WatchConfig) (hasGraph hasExtractor : Bool)
    (envs : Nat → CycleEnv) (denv : DeleteEnv) (fuel : Nat) (s : Sys) : Nat :=
  (activeTimers s).foldr
    (fun tm acc => timerPublishCount cfg hasGraph hasExtractor envs denv fuel
      s.hstate tm + acc) 0

/-! ## Batched graph re-extraction (`watch_handler.py` lines 245–287)

This part owns `self._graph_pending` and `self._graph_timer`; timers are
modelled as above.  The due times use `batch_graph_interval_seconds`
directly (the unit plays no role in the claims). -/

/-- One batch-flush timer created by `loop.call_later`. -/
structure GTimer where
  id : Nat
  due : Nat
deriving DecidableEq, Repr

/-- Batch-scheduler state: the pending path set, the at-most-one scheduled
flush handle, every timer ever created, and the fresh-id counter. -/
structure GSys where
  graphPending : List String
  graphTimer : Option Nat
  timers : List GTimer
  nextId : Nat
deriving Repr

/-- Fresh batch scheduler. -/
def initGSys : GSys := ⟨[], none, [], 0⟩

/-- `_schedule_graph_batch` (lines 245–254): a no-op when a flush is already
scheduled, otherwise create the flush timer and record its handle. -/
def scheduleGraphBatch (cfg : WatchConfig) (s : GSys) (now : Nat) : GSys :=
  match s.graphTimer with
  | some _ => s
  | none =>
      { s with graphTimer := some s.nextId,
               timers := s.timers ++ [⟨s.nextId, now + cfg.batch_graph_interval_seconds⟩],
               nextId := s.nextId + 1 }

/-- The enqueue step performed at lines 217–218 of `_process_change`:
`self._graph_pending.add(path)` followed by `self._schedule_graph_batch()`. -/
def enqueueGraph (cfg : WatchConfig) (s : GSys) (now : Nat) (path : String) :
    GSys :=
  scheduleGraphBatch cfg { s with graphPending := insertSet s.graphPending path } now

/-- Enqueue a list of paths in order. -/
def enqueueAll (cfg : WatchConfig) (s : GSys) (now : Nat) (ps : List String) :
    GSys :=
  ps.foldl (fun s p => enqueueGraph cfg s now p) s

/-- External world for one batch flush: which paths still exist, how they
parse, and the extractor outcome. -/
structure BatchEnv where
  existsOnDisk : String → Bool
  parse : String → Except Unit Nat
  extractRes : Except Unit (Nat × Nat)

/-- Observable effects of one `_run_graph_batch` invocation: each
`extract_and_update_graph` call with its note list, and the stats logged on
success. -/
structure BatchOut where
  extractorCalls : List (List Nat)
  loggedStats : Option (Nat × Nat)
deriving Repr

/-- `_run_graph_batch` (lines 256–287): clear the timer handle, snapshot and
clear the pending set, return early when the snapshot is empty or the
extractor/graph collaborators are absent; otherwise keep the parseable notes
of still-existing paths (per-path parse failures are logged and skipped),
return early when none remain, and finally await the extractor once —
`duringFlush` are the paths other tasks enqueue during that await (the only
suspension point); an extractor exception is caught and changes nothing. -/
def runGraphBatch (cfg : WatchConfig) (hasGraph hasExtractor : Bool)
    (env : BatchEnv) (s : GSys) (now : Nat) (duringFlush : List String) :
    GSys × BatchOut :=
  let s := { s with graphTimer := none }
  let paths := s.graphPending
  let s := { s with graphPending := [] }
  if paths.isEmpty || !hasExtractor || !hasGraph then (s, ⟨[], none⟩)
  else
    let notes := (paths.filter env.existsOnDisk).filterMap
        (fun p => (env.parse p).toOption)
    if notes.isEmpty then (s, ⟨[], none⟩)
    else
      let s := enqueueAll cfg s now duringFlush
      match env.extractRes with
      | .ok stats => (s, ⟨[notes], some stats⟩)
      | .error _ => (s, ⟨[notes], none⟩)

/-- Scheduler invariant for a burst of same-path notifications whose times
all lie in the window [t0, t0 + debounce): every timer belongs to the path;
timer ids are fresh and distinct; every cancellation happened strictly
before its timer's due time; the pending handle (if any) points at a timer
due no earlier than the end of the window; every uncancelled timer is the
one currently recorded in the pending map; and the pending map holds at most
the one entry for the path. -/
def SchedInv (cfg : WatchConfig) (p : String) (t0 : Nat) (s : Sys) : Prop :=
  (∀ tm ∈ s.timers, tm.path = p) ∧
  (∀ tm ∈ s.timers, tm.id < s.nextId) ∧
  (s.timers.map Timer.id).Nodup ∧
  (∀ jc ∈ s.cancelled, ∃ tm ∈ s.timers, tm.id = jc.1 ∧ jc.2 < tm.due) ∧
  (∀ j, alookup s.hstate.pending p = some j →
     ∃ tm ∈ s.timers, tm.id = j ∧ t0 + cfg.debounce_ms ≤ tm.due) ∧
  (∀ tm ∈ s.timers, tm.id ∉ cancelledIds s →
     alookup s.hstate.pending tm.path = some tm.id) ∧
  (s.hstate.pending = [] ∨ ∃ j, s.hstate.pending = [(p, j)])

/-! ## Helper lemmas -/

theorem alookup_ainsert_self {α : Type} (l : List (String × α)) (k : String) (v : α) :
    alookup (ainsert l k v) k = some v := by
  induction l with
  | nil => simp [ainsert, aerase, alookup]
  | cons kv rest ih =>
    by_cases hk : kv.1 = k
    · simpa [ainsert, aerase, hk] using ih
    · simpa [ainsert, aerase, hk, alookup] using ih

theorem alookup_aerase_self {α : Type} (l : List (String × α)) (k : String) :
    alookup (aerase l k) k = none := by
  induction l with
  | nil => rfl
  | cons kv rest ih =>
    by_cases hk : kv.1 = k
    · simpa [aerase, hk] using ih
    · simpa [aerase, hk, alookup] using ih

theorem safeCall_eq_ok (env : Nat → VEvent → Except String Unit) (cb : Nat)
    (e : VEvent) : safeCall env cb e = .ok () := by
  unfold safeCall
  cases env cb e <;> rfl

theorem gatherExc_eq_ok (l : List (Except String Unit))
    (h : ∀ x ∈ l, x = .ok ()) : gatherExc l = .ok () := by
  induction l with
  | nil => rfl
  | cons a rest ih =>
    have ha := h a (by simp)
    subst ha
    exact ih fun x hx => h x (by simp [hx])

theorem publish_result_ok (env : Nat → VEvent → Except String Unit)
    (bus : VaultEventBus) (e : VEvent) : (publish env bus e).result = .ok () := by
  unfold publish
  by_cases hs : (bus.subscribers e.kind).isEmpty
  · simp [hs]
  · simp only [hs, if_false, Bool.false_eq_true]
    exact gatherExc_eq_ok _ (by
      intro x hx
      rcases List.mem_map.mp hx with ⟨cb, _, rfl⟩
      exact safeCall_eq_ok env cb e)

theorem publish_invoked_fst (env : Nat → VEvent → Except String Unit)
    (bus : VaultEventBus) (e : VEvent) :
    (publish env bus e).invoked.map Prod.fst = bus.subscribers e.kind := by
  unfold publish
  by_cases hs : (bus.subscribers e.kind).isEmpty
  · simp [hs, List.isEmpty_iff.mp hs]
  · simp only [hs, if_false, Bool.false_eq_true, List.map_map]
    exact List.map_id' (bus.subscribers e.kind)

theorem subscribeTimes_subscribers (bus : VaultEventBus) (k : EKind) (cb : Nat)
    (n : Nat) :
    (subscribeTimes bus k cb n).subscribers k
      = bus.subscribers k ++ List.replicate n cb := by
  induction n with
  | zero => simp [subscribeTimes]
  | succ n ih =>
    simp [subscribeTimes, subscribe, ih, List.replicate_succ']

theorem subscribeTimes_subscribers_ne (bus : VaultEventBus) (k k' : EKind)
    (cb : Nat) (n : Nat) (hk : k' ≠ k) :
    (subscribeTimes bus k cb n).subscribers k' = bus.subscribers k' := by
  induction n with
  | zero => rfl
  | succ n ih => simp [subscribeTimes, subscribe, hk, ih]

/-! ## Claim theorems -/

/-- C4: Subscriber isolation — whenever at least one callback registered for
the event's type raises and at least one succeeds, `publish` invokes every
registered callback for that type exactly once (in registration order, so
per-callback invocation counts equal registration counts), every succeeding
callback completes with its result delivered, and `publish` itself returns
normally — no exception escapes to its caller. -/
theorem C4_subscriber_isolation (env : Nat → VEvent → Except String Unit)
    (bus : VaultEventBus) (e : VEvent)
    (hfail : ∃ cb ∈ bus.subscribers e.kind, ∃ m, env cb e = .error m)
    (hok : ∃ cb ∈ bus.subscribers e.kind, env cb e = .ok ()) :
    (publish env bus e).invoked
        = (bus.subscribers e.kind).map (fun cb => (cb, env cb e)) ∧
    (∀ cb, ((publish env bus e).invoked.map Prod.fst).count cb
        = (bus.subscribers e.kind).count cb) ∧
    (∀ cb ∈ bus.subscribers e.kind, env cb e = .ok () →
        (cb, Except.ok ()) ∈ (publish env bus e).invoked) ∧
    (publish env bus e).result = .ok () := by
  have hne : ¬ (bus.subscribers e.kind).isEmpty := by
    rcases hfail with ⟨cb, hcb, _⟩
    simp [List.isEmpty_iff]
    exact fun hnil => by simp [hnil] at hcb
  refine ⟨?_, ?_, ?_, publish_result_ok env bus e⟩
  · unfold publish
    simp [hne]
  · intro cb
    rw [publish_invoked_fst]
  · intro cb hcb hev
    unfold publish
    simp only [hne, if_false, Bool.false_eq_true]
    exact List.mem_map.mpr ⟨cb, hcb, by simp [hev]⟩

/-- C4 witness: a bus with a failing subscriber (id 0) and a succeeding
subscriber (id 1) on the created-event type; publishing one event invokes
both exactly once, the succeeding one completes, and publish returns
normally. -/
theorem C4_subscriber_isolation_witness :
    (publish (fun cb _ => if cb = 0 then .error "boom" else .ok ())
        ⟨fun k => if k = EKind.createdK then [0, 1] else []⟩
        (VEvent.created "note.md" 1 2)).invoked
      = [(0, Except.error "boom"), (1, Except.ok ())] ∧
    (publish (fun cb _ => if cb = 0 then .error "boom" else .ok ())
        ⟨fun k => if k = EKind.createdK then [0, 1] else []⟩
        (VEvent.created "note.md" 1 2)).result = .ok () := by
  have h := C4_subscriber_isolation
    (fun cb _ => if cb = 0 then .error "boom" else .ok ())
    ⟨fun k => if k = EKind.createdK then [0, 1] else []⟩
    (VEvent.created "note.md" 1 2)
    ⟨0, by simp [VEvent.kind], "boom", by simp⟩
    ⟨1, by simp [VEvent.kind], by simp⟩
  refine ⟨?_, h.2.2.2⟩
  rw [h.1]
  simp [VEvent.kind]

/-- C10: Duplicate-subscription semantics — registering the same callback n
further times via `subscribe` makes `publish` of a matching event invoke it
(previous count + n) times; `unsubscribe` removes exactly one registration
(count drops by one, saturating at zero); and when the callback is not
registered for the type — in particular when the type has no subscribers at
all — `unsubscribe` is a total no-op that leaves every subscriber list
unchanged and raises nothing. -/
theorem C10_duplicate_subscription_semantics (bus : VaultEventBus) (cb : Nat)
    (env : Nat → VEvent → Except String Unit) (e : VEvent) (n : Nat) :
    (((publish env (subscribeTimes bus e.kind cb n) e).invoked.map Prod.fst).count cb
        = (bus.subscribers e.kind).count cb + n) ∧
    (∀ k, ((unsubscribe bus k cb).subscribers k).count cb
        = (bus.subscribers k).count cb - 1) ∧
    (∀ k, cb ∉ bus.subscribers k →
        ∀ k', (unsubscribe bus k cb).subscribers k' = bus.subscribers k') ∧
    (∀ k k', k' ≠ k → (unsubscribe bus k cb).subscribers k' = bus.subscribers k') := by
  refine ⟨?_, ?_, ?_, ?_⟩
  · rw [publish_invoked_fst, subscribeTimes_subscribers]
    simp [List.count_append]
  · intro k
    simp [unsubscribe, List.count_erase_self]
  · intro k hcb k'
    by_cases hk : k' = k
    · subst hk
      simp [unsubscribe, List.erase_of_not_mem hcb]
    · simp [unsubscribe, hk]
  · intro k k' hk
    simp [unsubscribe, hk]

/-- C10 witness: on a bus where callback 7 is registered once for modified
events, two further subscriptions make publish invoke it three times;
unsubscribing drops its registration count to two; unsubscribing it from the
deleted type (no subscribers) changes nothing. -/
theorem C10_duplicate_subscription_semantics_witness :
    (((publish (fun _ _ => .ok ())
        (subscribeTimes ⟨fun k => if k = EKind.modifiedK then [7] else []⟩
          EKind.modifiedK 7 2)
        (VEvent.modified "note.md" 1 1)).invoked.map Prod.fst).count 7 = 3) ∧
    (((unsubscribe ⟨fun k => if k = EKind.modifiedK then [7] else []⟩
        EKind.modifiedK 7).subscribers EKind.modifiedK).count 7 = 0) ∧
    ((unsubscribe ⟨fun k => if k = EKind.modifiedK then [7] else []⟩
        EKind.deletedK 7).subscribers EKind.deletedK = []) := by
  have h := C10_duplicate_subscription_semantics
    ⟨fun k => if k = EKind.modifiedK then [7] else []⟩ 7
    (fun _ _ => .ok ()) (VEvent.modified "note.md" 1 1) 2
  refine ⟨?_, ?_, ?_⟩
  · have := h.1
    simpa [VEvent.kind] using this
  · have := h.2.1 EKind.modifiedK
    simpa using this
  · have := h.2.2.1 EKind.deletedK (by simp) EKind.deletedK
    simpa using this

/-- C3 counterexample: with the path indexed (hash cached) and the store's
delete raising, the debounced delete handler calls the store but publishes
no `NoteDeletedEvent` at all — `_process_delete` logs the failure and
returns before the publish line, refuting "a NoteDeletedEvent is published
even if delete_note raises". -/
theorem C3_deleted_event_counterexample :
    (processDelete ⟨.error ()⟩ ⟨[("note.md", 0)], [("note.md", 4)], []⟩
        "note.md").2.deleteCalls = ["note.md"] ∧
    (processDelete ⟨.error ()⟩ ⟨[("note.md", 0)], [("note.md", 4)], []⟩
        "note.md").2.published = [] := by
  exact ⟨rfl, rfl⟩

/-- C3 amended: when the debounced delete handler runs, it always pops the
pending handle and clears the last-confirmed fingerprint and calls the
store's delete; a `NoteDeletedEvent` is published exactly when that
delete call succeeds — if it raises, the index error is logged and no event
is published. -/
theorem C3_deleted_event_amended (env : DeleteEnv) (st : HState) (path : String) :
    alookup (processDelete env st path).1.hashCache path = none ∧
    alookup (processDelete env st path).1.pending path = none ∧
    (processDelete env st path).2.deleteCalls = [path] ∧
    (env.deleteRes = .ok () → (processDelete env st path).2.published
        = [VEvent.deleted path]) ∧
    (env.deleteRes = .error () → (processDelete env st path).2.published = []) := by
  rcases env with ⟨res⟩
  cases res with
  | ok u =>
    cases u
    refine ⟨?_, ?_, ?_, ?_, ?_⟩ <;> simp [processDelete, alookup_aerase_self]
  | error u =>
    cases u
    refine ⟨?_, ?_, ?_, ?_, ?_⟩ <;> simp [processDelete, alookup_aerase_self]

/-- C3 amended witness: on a concrete state, a succeeding delete publishes
the deleted event and clears the fingerprint; a failing delete publishes
nothing. -/
theorem C3_deleted_event_amended_witness :
    alookup (processDelete ⟨.ok ()⟩ ⟨[], [("a.md", 9)], []⟩ "a.md").1.hashCache
        "a.md" = none ∧
    (processDelete ⟨.ok ()⟩ ⟨[], [("a.md", 9)], []⟩ "a.md").2.published
        = [VEvent.deleted "a.md"] ∧
    (processDelete ⟨.error ()⟩ ⟨[], [("a.md", 9)], []⟩ "a.md").2.published = [] := by
  have hok := C3_deleted_event_amended ⟨.ok ()⟩ ⟨[], [("a.md", 9)], []⟩ "a.md"
  have herr := C3_deleted_event_amended ⟨.error ()⟩ ⟨[], [("a.md", 9)], []⟩ "a.md"
  exact ⟨hok.1, hok.2.2.2.1 rfl, herr.2.2.2.2 rfl⟩

/-- C7: Vanished-file safety — if the file no longer exists when the
debounced call fires, `_process_change` only pops the pending handle and
returns: no index call, no published event, no re-debounce, and (the model
being total, with the OSError path equally silent) no error; likewise when
the file vanishes during the stability sleep, the post-sleep re-read
abandons the cycle silently. -/
theorem C7_vanished_file_safety (cfg : WatchConfig) (hasGraph hasExtractor : Bool)
    (env : CycleEnv) (st : HState) (path : String) (et : EType) :
    (env.read1 = .absent →
      processChange cfg hasGraph hasExtractor env st path et
        = ({ st with pending := aerase st.pending path }, CycleOut.silent)) ∧
    (∀ h, cfg.hash_stability_check = true → env.read1 = .content h →
      alookup st.hashCache path ≠ some h → env.read2 = .absent →
      (processChange cfg hasGraph hasExtractor env st path et).2.indexCalls = [] ∧
      (processChange cfg hasGraph hasExtractor env st path et).2.published = [] ∧
      (processChange cfg hasGraph hasExtractor env st path et).2.redebounced = false) := by
  constructor
  · intro h1
    unfold processChange
    rw [h1]
  · intro h hstab h1 hcache h2
    unfold processChange
    rw [h1, h2]
    simp [hstab, hcache, CycleOut.silent]

/-- C7 witness: a concrete vanished file (absent at fire time, and absent at
the stability re-read in a second scenario) yields a silent cycle. -/
theorem C7_vanished_file_safety_witness :
    (processChange ⟨500, true, false, 300⟩ false false ⟨.absent, .absent, .ok 1, .ok 1⟩
        ⟨[("note.md", 3)], [], []⟩ "note.md" .modified
      = (⟨[], [], []⟩, CycleOut.silent)) ∧
    ((processChange ⟨500, true, false, 300⟩ false false
        ⟨.content 5, .absent, .ok 1, .ok 1⟩ ⟨[], [], []⟩ "note.md"
        .modified).2.published = []) := by
  have h := C7_vanished_file_safety ⟨500, true, false, 300⟩ false false
    ⟨.absent, .absent, .ok 1, .ok 1⟩ ⟨[("note.md", 3)], [], []⟩ "note.md" .modified
  have h2 := C7_vanished_file_safety ⟨500, true, false, 300⟩ false false
    ⟨.content 5, .absent, .ok 1, .ok 1⟩ ⟨[], [], []⟩ "note.md" .modified
  constructor
  · have := h.1 rfl
    simpa [aerase] using this
  · exact (h2.2 5 rfl rfl (by simp [alookup]) rfl).2.1

/-- C1: evaluation of the code at the claim's failing input.  With
`hash_stability_check` enabled (the shipped default), a path whose current
fingerprint (5) equals its last-confirmed fingerprint falls through the
stability branch into the settle stage: the store is called and a
`NoteModifiedEvent` is published — contradicting the claimed (and
spec-stated) skip.  With the check disabled, the same situation is indeed
skipped, as the in-code comment "Without stability check, still skip if
content unchanged" presumes of both branches. -/
theorem C1_noop_unchanged_code_bug_eval :
    ((processChange ⟨500, true, false, 300⟩ false false
        ⟨.content 5, .content 5, .ok 9, .ok 3⟩ ⟨[], [("note.md", 5)], []⟩
        "note.md" .modified).2.indexCalls = [9] ∧
     (processChange ⟨500, true, false, 300⟩ false false
        ⟨.content 5, .content 5, .ok 9, .ok 3⟩ ⟨[], [("note.md", 5)], []⟩
        "note.md" .modified).2.published = [VEvent.modified "note.md" 9 3]) ∧
    ((processChange ⟨500, false, false, 300⟩ false false
        ⟨.content 5, .content 5, .ok 9, .ok 3⟩ ⟨[], [("note.md", 5)], []⟩
        "note.md" .modified).2.indexCalls = [] ∧
     (processChange ⟨500, false, false, 300⟩ false false
        ⟨.content 5, .content 5, .ok 9, .ok 3⟩ ⟨[], [("note.md", 5)], []⟩
        "note.md" .modified).2.published = []) := by
  refine ⟨⟨?_, ?_⟩, ?_, ?_⟩ <;> rfl

/-- C2 counterexample: with stability checking disabled, fingerprint 1
last confirmed and new content fingerprint 2, a failing
`index_single_note` leaves the hash cache holding 2 — not the pre-cycle
value 1 as claimed — and the follow-up notification with the same content
is skipped (no index retry), refuting both the fingerprint-rollback and the
retry conjuncts of the claim.  (No event is published; that part holds.) -/
theorem C2_index_failure_counterexample :
    alookup (⟨[], [("note.md", 1)], []⟩ : HState).hashCache "note.md" = some 1 ∧
    alookup (processChange ⟨500, false, false, 300⟩ false false
        ⟨.content 2, .content 2, .ok 7, .error ()⟩ ⟨[], [("note.md", 1)], []⟩
        "note.md" .modified).1.hashCache "note.md" = some 2 ∧
    (processChange ⟨500, false, false, 300⟩ false false
        ⟨.content 2, .content 2, .ok 7, .error ()⟩ ⟨[], [("note.md", 1)], []⟩
        "note.md" .modified).2.published = [] ∧
    (processChange ⟨500, false, false, 300⟩ false false
        ⟨.content 2, .content 2, .ok 7, .ok 1⟩
        (processChange ⟨500, false, false, 300⟩ false false
          ⟨.content 2, .content 2, .ok 7, .error ()⟩ ⟨[], [("note.md", 1)], []⟩
          "note.md" .modified).1
        "note.md" .modified).2.indexCalls = [] := by
  refine ⟨?_, ?_, ?_, ?_⟩ <;> rfl

/-- C2 amended: if `index_single_note` raises during a debounce cycle that
reached it, `_process_change` publishes no event, but the path's hash-cache
entry has already been set to the current fingerprint (the update at line
190 precedes the index call, as spec §4.4 step 5 itself orders it);
consequently, with stability checking disabled, a subsequent notification
observing the same content is skipped — no index retry — rather than
retried. -/
theorem C2_index_failure_amended (cfg : WatchConfig) (hasGraph hasExtractor : Bool)
    (env : CycleEnv) (st : HState) (path : String) (et : EType) (h note : Nat)
    (hr : env.read1 = .content h)
    (hp : env.parseRes = .ok note)
    (hi : env.indexRes = .error ())
    (hskip : cfg.hash_stability_check = false → alookup st.hashCache path ≠ some h)
    (hstable : cfg.hash_stability_check = true → env.read2 = .content h) :
    (processChange cfg hasGraph hasExtractor env st path et).2.published = [] ∧
    (processChange cfg hasGraph hasExtractor env st path et).2.indexCalls = [note] ∧
    alookup (processChange cfg hasGraph hasExtractor env st path et).1.hashCache path
      = some h ∧
    (∀ env' : CycleEnv, env'.read1 = .content h →
      cfg.hash_stability_check = false →
      (processChange cfg hasGraph hasExtractor env'
          (processChange cfg hasGraph hasExtractor env st path et).1 path
          et).2.indexCalls = [] ∧
      (processChange cfg hasGraph hasExtractor env'
          (processChange cfg hasGraph hasExtractor env st path et).1 path
          et).2.published = []) := by
  by_cases hs : cfg.hash_stability_check = true
  · have h2 := hstable hs
    by_cases hc : alookup st.hashCache path = some h
    · have heq : processChange cfg hasGraph hasExtractor env st path et
          = settleCycle cfg hasGraph hasExtractor env
              { st with pending := aerase st.pending path } path et h := by
        unfold processChange
        rw [hr]
        simp [hs, hc]
      rw [heq]
      unfold settleCycle
      rw [hp, hi]
      refine ⟨rfl, rfl, alookup_ainsert_self _ _ _, ?_⟩
      intro env' _ hfalse
      rw [hs] at hfalse
      cases hfalse
    · have heq : processChange cfg hasGraph hasExtractor env st path et
          = settleCycle cfg hasGraph hasExtractor env
              { st with pending := aerase st.pending path,
                        hashCache := ainsert st.hashCache path h } path et h := by
        unfold processChange
        rw [hr]
        simp only [hs, if_true]
        rw [if_pos hc]
        rw [h2]
        simp
      rw [heq]
      unfold settleCycle
      rw [hp, hi]
      refine ⟨rfl, rfl, alookup_ainsert_self _ _ _, ?_⟩
      intro env' _ hfalse
      rw [hs] at hfalse
      cases hfalse
  · have hs' : cfg.hash_stability_check = false := by
      cases hb : cfg.hash_stability_check
      · rfl
      · exact absurd hb hs
    have hc := hskip hs'
    have heq : processChange cfg hasGraph hasExtractor env st path et
        = settleCycle cfg hasGraph hasExtractor env
            { st with pending := aerase st.pending path } path et h := by
      unfold processChange
      rw [hr]
      simp [hs', hc]
    rw [heq]
    unfold settleCycle
    rw [hp, hi]
    refine ⟨rfl, rfl, alookup_ainsert_self _ _ _, ?_⟩
    intro env' hr' _
    unfold processChange
    rw [hr']
    simp [hs', alookup_ainsert_self, CycleOut.silent]

/-- C2 amended witness: concrete failing-index cycle (stability off,
old fingerprint 1, new fingerprint 2) publishes nothing, calls the store
once, leaves fingerprint 2 cached, and the follow-up same-content cycle is
skipped. -/
theorem C2_index_failure_amended_witness :
    (processChange ⟨500, false, false, 300⟩ false false
        ⟨.content 2, .content 2, .ok 7, .error ()⟩ ⟨[], [("note.md", 1)], []⟩
        "note.md" .modified).2.published = [] ∧
    alookup (processChange ⟨500, false, false, 300⟩ false false
        ⟨.content 2, .content 2, .ok 7, .error ()⟩ ⟨[], [("note.md", 1)], []⟩
        "note.md" .modified).1.hashCache "note.md" = some 2 := by
  have h := C2_index_failure_amended ⟨500, false, false, 300⟩ false false
    ⟨.content 2, .content 2, .ok 7, .error ()⟩ ⟨[], [("note.md", 1)], []⟩
    "note.md" .modified 2 7 rfl rfl rfl
    (fun _ => by simp [alookup]) (fun hab => by cases hab)
  exact ⟨h.1, h.2.2.1⟩

/-! ## Batch-scheduler lemmas -/

theorem mem_insertSet_self (l : List String) (p : String) : p ∈ insertSet l p := by
  unfold insertSet
  split
  · assumption
  · simp

theorem mem_insertSet_of_mem (l : List String) (p q : String) (h : q ∈ l) :
    q ∈ insertSet l p := by
  unfold insertSet
  split
  · exact h
  · simp [h]

theorem insertSet_ne_nil (l : List String) (p : String) : insertSet l p ≠ [] := by
  intro hnil
  exact (List.mem_nil_iff p).mp (hnil ▸ mem_insertSet_self l p)

theorem enqueueGraph_pending (cfg : WatchConfig) (s : GSys) (now : Nat)
    (p : String) :
    (enqueueGraph cfg s now p).graphPending = insertSet s.graphPending p := by
  unfold enqueueGraph scheduleGraphBatch
  cases s.graphTimer <;> rfl

theorem enqueueGraph_timer_some (cfg : WatchConfig) (s : GSys) (now : Nat)
    (p : String) (j : Nat) (h : s.graphTimer = some j) :
    enqueueGraph cfg s now p = { s with graphPending := insertSet s.graphPending p } := by
  unfold enqueueGraph scheduleGraphBatch
  simp [h]

theorem enqueueAll_timer_some (cfg : WatchConfig) (now : Nat) (ps : List String) :
    ∀ (s : GSys) (j : Nat), s.graphTimer = some j →
      (enqueueAll cfg s now ps).graphTimer = some j ∧
      (enqueueAll cfg s now ps).timers = s.timers ∧
      (enqueueAll cfg s now ps).nextId = s.nextId ∧
      (enqueueAll cfg s now ps).graphPending = ps.foldl insertSet s.graphPending := by
  induction ps with
  | nil => intro s j h; exact ⟨h, rfl, rfl, rfl⟩
  | cons p rest ih =>
    intro s j h
    have hstep : enqueueAll cfg s now (p :: rest)
        = enqueueAll cfg (enqueueGraph cfg s now p) now rest := rfl
    rw [hstep, enqueueGraph_timer_some cfg s now p j h]
    exact ih _ j h

theorem enqueueAll_mem_pending (cfg : WatchConfig) (now : Nat) (ps : List String) :
    ∀ (s : GSys) (q : String), q ∈ ps ∨ q ∈ s.graphPending →
      q ∈ (enqueueAll cfg s now ps).graphPending := by
  induction ps with
  | nil =>
    intro s q hq
    rcases hq with hq | hq
    · cases hq
    · exact hq
  | cons p rest ih =>
    intro s q hq
    have hstep : enqueueAll cfg s now (p :: rest)
        = enqueueAll cfg (enqueueGraph cfg s now p) now rest := rfl
    rw [hstep]
    rcases hq with hq | hq
    · rcases List.mem_cons.mp hq with hq | hq
      · subst hq
        exact ih _ q (Or.inr (by rw [enqueueGraph_pending]; exact mem_insertSet_self _ _))
      · exact ih _ q (Or.inl hq)
    · exact ih _ q (Or.inr (by rw [enqueueGraph_pending]; exact mem_insertSet_of_mem _ _ _ hq))

theorem runGraphBatch_extract (cfg : WatchConfig) (env : BatchEnv) (s : GSys)
    (now : Nat) (during : List String)
    (hsnap : s.graphPending.isEmpty = false)
    (hnotes : ((s.graphPending.filter env.existsOnDisk).filterMap
        (fun p => (env.parse p).toOption)).isEmpty = false) :
    runGraphBatch cfg true true env s now during
      = (enqueueAll cfg ⟨[], none, s.timers, s.nextId⟩ now during,
         ⟨[(s.graphPending.filter env.existsOnDisk).filterMap
             (fun p => (env.parse p).toOption)], env.extractRes.toOption⟩) := by
  unfold runGraphBatch
  simp only [hsnap, hnotes, Bool.not_true, Bool.or_self, Bool.false_or,
    Bool.or_false, if_false, Bool.false_eq_true]
  cases henv : env.extractRes <;> rfl

/-- C6: Batch-flush atomicity and coalescing — starting from a state with no
flush timer pending, enqueuing any nonempty list of paths creates exactly
one shared flush timer (due one batch interval after the enqueue); when the
flush runs — given the extractor and graph collaborators and at least one
enqueued path that still exists and parses — the batch extractor is invoked
exactly once, its batch containing the parsed note of every enqueued path
that survives the existence filter and parses; paths enqueued during the
flush are in the pending set afterwards (queued into the next batch, never
lost); and an extractor failure yields exactly the same scheduler state as a
success, so the pending-set invariant is intact for subsequent batches. -/
theorem C6_batch_flush_atomicity (cfg : WatchConfig) (env : BatchEnv) (s : GSys)
    (now now2 : Nat) (ps duringFlush : List String)
    (htimer : s.graphTimer = none) (hne : ps ≠ [])
    (hsurv : ∃ p ∈ ps, env.existsOnDisk p = true ∧ (env.parse p).toOption ≠ none) :
    (enqueueAll cfg s now ps).graphTimer = some s.nextId ∧
    (enqueueAll cfg s now ps).timers
      = s.timers ++ [⟨s.nextId, now + cfg.batch_graph_interval_seconds⟩] ∧
    (∀ p ∈ ps, p ∈ (enqueueAll cfg s now ps).graphPending) ∧
    ((runGraphBatch cfg true true env (enqueueAll cfg s now ps) now2
        duringFlush).2.extractorCalls).length = 1 ∧
    (∀ p ∈ ps, ∀ m, env.existsOnDisk p = true → env.parse p = .ok m →
      ∀ c ∈ (runGraphBatch cfg true true env (enqueueAll cfg s now ps) now2
        duringFlush).2.extractorCalls, m ∈ c) ∧
    (∀ q ∈ duringFlush,
      q ∈ (runGraphBatch cfg true true env (enqueueAll cfg s now ps) now2
        duringFlush).1.graphPending) ∧
    (runGraphBatch cfg true true ⟨env.existsOnDisk, env.parse, .error ()⟩
        (enqueueAll cfg s now ps) now2 duringFlush).1
      = (runGraphBatch cfg true true env (enqueueAll cfg s now ps) now2
        duringFlush).1 := by
  rcases ps with _ | ⟨p0, rest⟩
  · exact absurd rfl hne
  have hstep : enqueueAll cfg s now (p0 :: rest)
      = enqueueAll cfg (enqueueGraph cfg s now p0) now rest := rfl
  have henq1 : enqueueGraph cfg s now p0
      = { graphPending := insertSet s.graphPending p0,
          graphTimer := some s.nextId,
          timers := s.timers ++ [⟨s.nextId, now + cfg.batch_graph_interval_seconds⟩],
          nextId := s.nextId + 1 } := by
    unfold enqueueGraph scheduleGraphBatch
    simp [htimer]
  have hall := enqueueAll_timer_some cfg now rest (enqueueGraph cfg s now p0)
    s.nextId (by rw [henq1])
  have htimer' : (enqueueAll cfg s now (p0 :: rest)).graphTimer = some s.nextId := by
    rw [hstep]; exact hall.1
  have htimers' : (enqueueAll cfg s now (p0 :: rest)).timers
      = s.timers ++ [⟨s.nextId, now + cfg.batch_graph_interval_seconds⟩] := by
    rw [hstep, hall.2.1, henq1]
  have hmem : ∀ p ∈ p0 :: rest, p ∈ (enqueueAll cfg s now (p0 :: rest)).graphPending :=
    fun p hp => enqueueAll_mem_pending cfg now (p0 :: rest) s p (Or.inl hp)
  -- the flush
  set es := enqueueAll cfg s now (p0 :: rest) with hes
  have hsnap : es.graphPending.isEmpty = false := by
    rcases hpe : es.graphPending with _ | ⟨a, l⟩
    · exact absurd (hpe ▸ hmem p0 (by simp)) (List.not_mem_nil p0)
    · rfl
  rcases hsurv with ⟨q0, hq0, hq0ex, hq0p⟩
  rcases hm0 : (env.parse q0).toOption with _ | m0
  · exact absurd hm0 hq0p
  have hq0f : q0 ∈ es.graphPending.filter env.existsOnDisk :=
    List.mem_filter.mpr ⟨hmem q0 hq0, hq0ex⟩
  have hm0n : m0 ∈ (es.graphPending.filter env.existsOnDisk).filterMap
      (fun p => (env.parse p).toOption) :=
    List.mem_filterMap.mpr ⟨q0, hq0f, hm0⟩
  have hnotes : ((es.graphPending.filter env.existsOnDisk).filterMap
      (fun p => (env.parse p).toOption)).isEmpty = false := by
    rcases hne2 : (es.graphPending.filter env.existsOnDisk).filterMap
        (fun p => (env.parse p).toOption) with _ | ⟨a, l⟩
    · exact absurd (hne2 ▸ hm0n) (List.not_mem_nil m0)
    · rfl
  have hrun := runGraphBatch_extract cfg env es now2 duringFlush hsnap hnotes
  have hrun' := runGraphBatch_extract cfg ⟨env.existsOnDisk, env.parse, .error ()⟩
    es now2 duringFlush hsnap hnotes
  refine ⟨htimer', htimers', hmem, ?_, ?_, ?_, ?_⟩
  · rw [hrun]
    rfl
  · intro p hp m hex hpar c hc
    rw [hrun] at hc
    replace hc : c = (es.graphPending.filter env.existsOnDisk).filterMap
        (fun p => (env.parse p).toOption) := by simpa using hc
    subst hc
    exact List.mem_filterMap.mpr
      ⟨p, List.mem_filter.mpr ⟨hmem p hp, hex⟩, by rw [hpar]; rfl⟩
  · intro q hq
    rw [hrun]
    exact enqueueAll_mem_pending cfg now2 duringFlush _ q (Or.inl hq)
  · rw [hrun, hrun']

/-- C6 witness: enqueuing a, b, c from a fresh scheduler yields one shared
timer (handle 0); the flush invokes the extractor exactly once, and d.md —
enqueued during the flush — sits in the pending set of the next batch. -/
theorem C6_batch_flush_atomicity_witness :
    (enqueueAll ⟨500, false, true, 300⟩ initGSys 0 ["a.md", "b.md", "c.md"]).graphTimer
      = some 0 ∧
    ((runGraphBatch ⟨500, false, true, 300⟩ true true
        ⟨fun _ => true, fun _ => .ok 1, .ok (2, 3)⟩
        (enqueueAll ⟨500, false, true, 300⟩ initGSys 0 ["a.md", "b.md", "c.md"])
        300 ["d.md"]).2.extractorCalls).length = 1 ∧
    "d.md" ∈ (runGraphBatch ⟨500, false, true, 300⟩ true true
        ⟨fun _ => true, fun _ => .ok 1, .ok (2, 3)⟩
        (enqueueAll ⟨500, false, true, 300⟩ initGSys 0 ["a.md", "b.md", "c.md"])
        300 ["d.md"]).1.graphPending := by
  have h := C6_batch_flush_atomicity ⟨500, false, true, 300⟩
    ⟨fun _ => true, fun _ => .ok 1, .ok (2, 3)⟩ initGSys 0 300
    ["a.md", "b.md", "c.md"] ["d.md"] rfl (by simp)
    ⟨"a.md", by simp, rfl, by simp [Except.toOption]⟩
  exact ⟨h.1, h.2.2.2.1, h.2.2.2.2.2.1 "d.md" (by simp)⟩

/-- C8 counterexample: with `debounce_ms = 50`, a deleted notification at
t=0 does not move directly to the deleting action — it only schedules the
delete callback for t=50 (nothing is cancelled, no fingerprint cleared, no
store call yet) — and a modified notification for the same path at t=10
cancels that very handle before it fires, so the only timer left able to
fire is the modified one: the deletion never runs. -/
theorem C8_deletion_direct_counterexample :
    (handleChange ⟨50, true, false, 300⟩ initSys 0 "note.md" EType.deleted).timers
      = [⟨0, 50, "note.md", TimerKind.del⟩] ∧
    (handleChange ⟨50, true, false, 300⟩ initSys 0 "note.md" EType.deleted).cancelled
      = [] ∧
    (handleChange ⟨50, true, false, 300⟩
        (handleChange ⟨50, true, false, 300⟩ initSys 0 "note.md" EType.deleted)
        10 "note.md" EType.modified).cancelled = [(0, 10)] ∧
    activeTimers (handleChange ⟨50, true, false, 300⟩
        (handleChange ⟨50, true, false, 300⟩ initSys 0 "note.md" EType.deleted)
        10 "note.md" EType.modified)
      = [⟨1, 60, "note.md", TimerKind.change EType.modified⟩] := by
  refine ⟨rfl, rfl, rfl, rfl⟩

/-- C8 amended: `handle_change(path, deleted)` cancels any pending debounce
handle for the path and then schedules `_process_delete` after the debounce
interval, exactly like a change notification (so a later notification for
the path before that timer fires cancels the scheduled deletion); when the
delete timer does fire, `_process_delete` clears the path's last-confirmed
fingerprint, delegates removal to the external index, and publishes a
`NoteDeletedEvent` when that removal succeeds. -/
theorem C8_deletion_debounced_amended (cfg : WatchConfig) (s : Sys) (now : Nat)
    (path : String) :
    (∀ j, alookup s.hstate.pending path = some j →
      (handleChange cfg s now path .deleted).cancelled = (j, now) :: s.cancelled) ∧
    (handleChange cfg s now path .deleted).timers
      = s.timers ++ [⟨s.nextId, now + cfg.debounce_ms, path, TimerKind.del⟩] ∧
    alookup (handleChange cfg s now path .deleted).hstate.pending path
      = some s.nextId ∧
    (∀ (env : DeleteEnv) (st : HState),
      (processDelete env st path).2.deleteCalls = [path] ∧
      alookup (processDelete env st path).1.hashCache path = none ∧
      (env.deleteRes = .ok () →
        (processDelete env st path).2.published = [VEvent.deleted path])) := by
  refine ⟨?_, ?_, ?_, ?_⟩
  · intro j hj
    unfold handleChange
    rw [hj]
  · unfold handleChange
    cases hj : alookup s.hstate.pending path <;> rfl
  · unfold handleChange
    cases hj : alookup s.hstate.pending path <;>
      exact alookup_ainsert_self _ _ _
  · intro env st
    rcases env with ⟨res⟩
    cases res with
    | ok u =>
      cases u
      refine ⟨?_, ?_, ?_⟩ <;> simp [processDelete, alookup_aerase_self]
    | error u =>
      cases u
      refine ⟨?_, ?_, ?_⟩ <;> simp [processDelete, alookup_aerase_self]

/-- C8 amended witness: a deleted notification on a path with a pending
handle (id 3) cancels it, schedules the delete for t = now + debounce, and a
fired delete cycle with a succeeding store publishes the deleted event. -/
theorem C8_deletion_debounced_amended_witness :
    (handleChange ⟨50, true, false, 300⟩
        ⟨⟨[("note.md", 3)], [("note.md", 8)], []⟩, [], [], 4⟩ 100 "note.md"
        .deleted).cancelled = [(3, 100)] ∧
    (handleChange ⟨50, true, false, 300⟩
        ⟨⟨[("note.md", 3)], [("note.md", 8)], []⟩, [], [], 4⟩ 100 "note.md"
        .deleted).timers = [⟨4, 150, "note.md", TimerKind.del⟩] ∧
    (processDelete ⟨.ok ()⟩ ⟨[], [("note.md", 8)], []⟩ "note.md").2.published
      = [VEvent.deleted "note.md"] := by
  have h := C8_deletion_debounced_amended ⟨50, true, false, 300⟩
    ⟨⟨[("note.md", 3)], [("note.md", 8)], []⟩, [], [], 4⟩ 100 "note.md"
  exact ⟨h.1 3 rfl, h.2.1, (h.2.2.2 ⟨.ok ()⟩ ⟨[], [("note.md", 8)], []⟩).2.2 rfl⟩

/-! ## Debounce-scheduler lemmas -/

theorem handleChange_inv (cfg : WatchConfig) (p : String) (t0 : Nat) (s : Sys)
    (now : Nat) (et : EType) (hinv : SchedInv cfg p t0 s)
    (h1 : t0 ≤ now) (h2 : now < t0 + cfg.debounce_ms) :
    SchedInv cfg p t0 (handleChange cfg s now p et) ∧
    (handleChange cfg s now p et).hstate.pending = [(p, s.nextId)] := by
  obtain ⟨inv1, inv2, inv3, inv4, inv5, inv6, inv7⟩ := hinv
  have e1 : (handleChange cfg s now p et).timers
      = s.timers ++ [⟨s.nextId, now + cfg.debounce_ms, p,
          if et = EType.deleted then TimerKind.del else TimerKind.change et⟩] := by
    unfold handleChange
    cases alookup s.hstate.pending p <;> rfl
  have e2 : (handleChange cfg s now p et).nextId = s.nextId + 1 := by
    unfold handleChange
    cases alookup s.hstate.pending p <;> rfl
  have e4 : (handleChange cfg s now p et).hstate.pending = [(p, s.nextId)] := by
    have : (handleChange cfg s now p et).hstate.pending
        = ainsert s.hstate.pending p s.nextId := by
      unfold handleChange
      cases alookup s.hstate.pending p <;> rfl
    rw [this]
    rcases inv7 with h7 | ⟨j, h7⟩ <;> simp [ainsert, aerase, h7]
  refine ⟨⟨?_, ?_, ?_, ?_, ?_, ?_, Or.inr ⟨s.nextId, e4⟩⟩, e4⟩
  · intro tm htm
    rw [e1] at htm
    rcases List.mem_append.mp htm with h | h
    · exact inv1 tm h
    · rw [List.mem_singleton.mp h]
  · intro tm htm
    rw [e1] at htm
    rw [e2]
    rcases List.mem_append.mp htm with h | h
    · exact Nat.lt_succ_of_lt (inv2 tm h)
    · rw [List.mem_singleton.mp h]
      exact Nat.lt_succ_self _
  · rw [e1, List.map_append]
    rw [List.nodup_append]
    refine ⟨inv3, List.nodup_singleton _, ?_⟩
    intro a ha hb
    rcases List.mem_map.mp ha with ⟨tm, htm, rfl⟩
    have := inv2 tm htm
    simp only [List.map_cons, List.map_nil, List.mem_singleton] at hb
    omega
  · intro jc hjc
    cases hl : alookup s.hstate.pending p with
    | none =>
      have ec : (handleChange cfg s now p et).cancelled = s.cancelled := by
        unfold handleChange
        rw [hl]
      rw [ec] at hjc
      rcases inv4 jc hjc with ⟨tm, htm, hid, hdue⟩
      exact ⟨tm, by rw [e1]; exact List.mem_append_left _ htm, hid, hdue⟩
    | some j =>
      have ec : (handleChange cfg s now p et).cancelled = (j, now) :: s.cancelled := by
        unfold handleChange
        rw [hl]
      rw [ec] at hjc
      rcases List.mem_cons.mp hjc with h | h
      · subst h
        rcases inv5 j hl with ⟨tm, htm, hid, hdue⟩
        exact ⟨tm, by rw [e1]; exact List.mem_append_left _ htm, hid, by omega⟩
      · rcases inv4 jc h with ⟨tm, htm, hid, hdue⟩
        exact ⟨tm, by rw [e1]; exact List.mem_append_left _ htm, hid, hdue⟩
  · intro j hj
    rw [e4] at hj
    have hjv : s.nextId = j := by
      simpa [alookup] using hj
    refine ⟨⟨s.nextId, now + cfg.debounce_ms, p,
        if et = EType.deleted then TimerKind.del else TimerKind.change et⟩,
      by rw [e1]; exact List.mem_append_right _ (List.mem_singleton_self _), hjv, ?_⟩
    show t0 + cfg.debounce_ms ≤ now + cfg.debounce_ms
    omega
  · intro tm htm hnc
    rw [e1] at htm
    rcases List.mem_append.mp htm with h | h
    · exfalso
      cases hl : alookup s.hstate.pending p with
      | none =>
        have ec : cancelledIds (handleChange cfg s now p et) = cancelledIds s := by
          unfold handleChange cancelledIds
          rw [hl]
        rw [ec] at hnc
        have := inv6 tm h hnc
        rw [inv1 tm h] at this
        rw [hl] at this
        cases this
      | some j =>
        have ec : cancelledIds (handleChange cfg s now p et)
            = j :: cancelledIds s := by
          unfold handleChange cancelledIds
          rw [hl]
          rfl
        rw [ec] at hnc
        have hnc2 : tm.id ∉ cancelledIds s := fun hx => hnc (List.mem_cons_of_mem _ hx)
        have hne2 : tm.id ≠ j := fun hx => hnc (hx ▸ List.mem_cons_self _ _)
        have := inv6 tm h hnc2
        rw [inv1 tm h] at this
        rw [hl] at this
        exact hne2 (Option.some_injective _ this).symm
    · rw [List.mem_singleton.mp h]
      rw [e4]
      simp [alookup]

theorem runCalls_inv (cfg : WatchConfig) (p : String) (t0 : Nat)
    (calls : List (Nat × String × EType)) :
    ∀ s : Sys, SchedInv cfg p t0 s →
      (∀ c ∈ calls, c.2.1 = p ∧ t0 ≤ c.1 ∧ c.1 < t0 + cfg.debounce_ms) →
      SchedInv cfg p t0 (runCalls cfg s calls) ∧
      (calls ≠ [] → ∃ j, (runCalls cfg s calls).hstate.pending = [(p, j)]) := by
  induction calls with
  | nil =>
    intro s hinv _
    exact ⟨hinv, fun h => absurd rfl h⟩
  | cons c rest ih =>
    intro s hinv hcalls
    obtain ⟨hcp, hc1, hc2⟩ := hcalls c (List.mem_cons_self _ _)
    have hstep : runCalls cfg s (c :: rest)
        = runCalls cfg (handleChange cfg s c.1 c.2.1 c.2.2) rest := rfl
    rw [hstep, hcp]
    have hh := handleChange_inv cfg p t0 s c.1 c.2.2 hinv hc1 hc2
    have hrest := ih (handleChange cfg s c.1 p c.2.2) hh.1
      (fun c' hc' => hcalls c' (List.mem_cons_of_mem _ hc'))
    refine ⟨hrest.1, fun _ => ?_⟩
    rcases rest with _ | ⟨c', rest'⟩
    · exact ⟨s.nextId, by simpa [runCalls] using hh.2⟩
    · exact hrest.2 (List.cons_ne_nil _ _)

theorem runCalls_timers_length (cfg : WatchConfig)
    (calls : List (Nat × String × EType)) :
    ∀ s : Sys, (runCalls cfg s calls).timers.length
      = s.timers.length + calls.length := by
  induction calls with
  | nil => intro s; rfl
  | cons c rest ih =>
    intro s
    have hstep : runCalls cfg s (c :: rest)
        = runCalls cfg (handleChange cfg s c.1 c.2.1 c.2.2) rest := rfl
    rw [hstep, ih]
    have : (handleChange cfg s c.1 c.2.1 c.2.2).timers.length
        = s.timers.length + 1 := by
      unfold handleChange
      cases alookup s.hstate.pending c.2.1 <;> simp
    rw [this]
    simp [List.length_cons]
    omega

theorem schedInv_initSys (cfg : WatchConfig) (p : String) (t0 : Nat) :
    SchedInv cfg p t0 initSys := by
  refine ⟨?_, ?_, ?_, ?_, ?_, ?_, Or.inl rfl⟩ <;>
    simp [initSys, cancelledIds, alookup]

theorem activeTimers_len_le_one (cfg : WatchConfig) (p : String) (t0 : Nat)
    (s : Sys) (hinv : SchedInv cfg p t0 s) : (activeTimers s).length ≤ 1 := by
  obtain ⟨inv1, _, inv3, _, _, inv6, inv7⟩ := hinv
  have hsub : (activeTimers s).Sublist s.timers := List.filter_sublist _
  have hnd : ((activeTimers s).map Timer.id).Nodup :=
    List.Nodup.sublist (List.Sublist.map Timer.id hsub) inv3
  have hall : ∀ tm ∈ activeTimers s, alookup s.hstate.pending p = some tm.id := by
    intro tm htm
    have hmem := (List.mem_filter.mp htm).1
    have hpred := (List.mem_filter.mp htm).2
    have hnc : tm.id ∉ cancelledIds s := by
      simpa using hpred
    have := inv6 tm hmem hnc
    rwa [inv1 tm hmem] at this
  rcases ha : activeTimers s with _ | ⟨a, rest⟩
  · simp
  rcases rest with _ | ⟨b, rest'⟩
  · simp
  exfalso
  have hja : alookup s.hstate.pending p = some a.id :=
    hall a (ha ▸ List.mem_cons_self _ _)
  have hjb : alookup s.hstate.pending p = some b.id :=
    hall b (ha ▸ List.mem_cons_of_mem _ (List.mem_cons_self _ _))
  have hab : a.id = b.id :=
    Option.some_injective _ (hja.symm.trans hjb)
  rw [ha] at hnd
  simp [hab] at hnd

theorem settleCycle_shape (cfg : WatchConfig) (hasGraph hasExtractor : Bool)
    (env : CycleEnv) (st : HState) (path : String) (et : EType) (h : Nat) :
    (settleCycle cfg hasGraph hasExtractor env st path et h).2.published.length ≤ 1 ∧
    (settleCycle cfg hasGraph hasExtractor env st path et h).2.redebounced = false := by
  unfold settleCycle
  rcases env.parseRes with e | note
  · exact ⟨by simp [CycleOut.silent], rfl⟩
  · rcases env.indexRes with e | chunks
    · exact ⟨by simp [CycleOut.silent], rfl⟩
    · constructor
      · dsimp only
        split <;> simp
      · dsimp only
        split <;> rfl

theorem processChange_published_shape (cfg : WatchConfig) (hasGraph hasExtractor : Bool)
    (env : CycleEnv) (st : HState) (path : String) (et : EType) :
    (processChange cfg hasGraph hasExtractor env st path et).2.published.length ≤ 1 ∧
    ((processChange cfg hasGraph hasExtractor env st path et).2.redebounced = true →
      (processChange cfg hasGraph hasExtractor env st path et).2.published = []) := by
  unfold processChange
  dsimp only
  rcases h1 : env.read1 with _ | _ | ch
  · exact ⟨by simp [CycleOut.silent], fun _ => rfl⟩
  · exact ⟨by simp [CycleOut.silent], fun _ => rfl⟩
  · dsimp only
    by_cases hs : cfg.hash_stability_check = true
    · rw [if_pos hs]
      by_cases hc : alookup st.hashCache path ≠ some ch
      · rw [if_pos hc]
        rcases h2 : env.read2 with _ | _ | rh
        · exact ⟨by simp [CycleOut.silent], fun _ => rfl⟩
        · exact ⟨by simp [CycleOut.silent], fun _ => rfl⟩
        · dsimp only
          by_cases hr : rh ≠ ch
          · rw [if_pos hr]
            exact ⟨by simp [CycleOut.silent], fun _ => rfl⟩
          · rw [if_neg hr]
            have hsh := settleCycle_shape cfg hasGraph hasExtractor env
              { st with pending := aerase st.pending path,
                        hashCache := ainsert st.hashCache path ch } path et ch
            exact ⟨hsh.1, fun hrd => absurd (hsh.2 ▸ hrd) (by simp)⟩
      · rw [if_neg hc]
        have hsh := settleCycle_shape cfg hasGraph hasExtractor env
          { st with pending := aerase st.pending path } path et ch
        exact ⟨hsh.1, fun hrd => absurd (hsh.2 ▸ hrd) (by simp)⟩
    · rw [if_neg hs]
      by_cases hc : alookup st.hashCache path = some ch
      · rw [if_pos hc]
        exact ⟨by simp [CycleOut.silent], fun _ => rfl⟩
      · rw [if_neg hc]
        have hsh := settleCycle_shape cfg hasGraph hasExtractor env
          { st with pending := aerase st.pending path } path et ch
        exact ⟨hsh.1, fun hrd => absurd (hsh.2 ▸ hrd) (by simp)⟩

theorem chainPublishCount_le_one (cfg : WatchConfig) (hasGraph hasExtractor : Bool)
    (fuel : Nat) :
    ∀ (envs : Nat → CycleEnv) (st : HState) (path : String) (et : EType),
      chainPublishCount cfg hasGraph hasExtractor envs fuel st path et ≤ 1 := by
  induction fuel with
  | zero =>
    intro envs st path et
    exact Nat.zero_le 1
  | succ fuel ih =>
    intro envs st path et
    unfold chainPublishCount
    dsimp only
    split
    · exact ih _ _ _ _
    · exact (processChange_published_shape cfg hasGraph hasExtractor (envs 0)
        st path et).1

theorem timerPublishCount_le_one (cfg : WatchConfig) (hasGraph hasExtractor : Bool)
    (envs : Nat → CycleEnv) (denv : DeleteEnv) (fuel : Nat) (st : HState)
    (tm : Timer) :
    timerPublishCount cfg hasGraph hasExtractor envs denv fuel st tm ≤ 1 := by
  unfold timerPublishCount
  cases tm.kind with
  | del =>
    rcases denv with ⟨res⟩
    cases res with
    | ok u => cases u; simp [processDelete]
    | error u => cases u; simp [processDelete]
  | change et => exact chainPublishCount_le_one cfg hasGraph hasExtractor fuel envs st tm.path et

/-- C5: Debounce coalescing invariant — for any burst of N ≥ 1 notifications
for the same path, all inside one debounce window: the pending map holds
exactly one deferred-call handle for the path (every superseded handle was
cancelled, strictly before it was due to fire, at the moment the next
notification arrived); one timer exists per notification but at most one of
them survives cancellation, so at most one settle cycle can run; and firing
everything that survived — through any re-debounce chain and any collaborator
behaviour — publishes at most one event. -/
theorem C5_debounce_coalescing (cfg : WatchConfig) (hasGraph hasExtractor : Bool)
    (p : String) (t0 : Nat) (calls : List (Nat × String × EType))
    (hne : calls ≠ [])
    (hcalls : ∀ c ∈ calls, c.2.1 = p ∧ t0 ≤ c.1 ∧ c.1 < t0 + cfg.debounce_ms) :
    (∃ j, (runCalls cfg initSys calls).hstate.pending = [(p, j)]) ∧
    (∀ jc ∈ (runCalls cfg initSys calls).cancelled,
      ∃ tm ∈ (runCalls cfg initSys calls).timers, tm.id = jc.1 ∧ jc.2 < tm.due) ∧
    (runCalls cfg initSys calls).timers.length = calls.length ∧
    (activeTimers (runCalls cfg initSys calls)).length ≤ 1 ∧
    (∀ (envs : Nat → CycleEnv) (denv : DeleteEnv) (fuel : Nat),
      cyclePublishTotal cfg hasGraph hasExtractor envs denv fuel
        (runCalls cfg initSys calls) ≤ 1) := by
  have hrun := runCalls_inv cfg p t0 calls initSys (schedInv_initSys cfg p t0) hcalls
  have hinv := hrun.1
  refine ⟨hrun.2 hne, hinv.2.2.2.1, ?_, ?_, ?_⟩
  · rw [runCalls_timers_length]
    simp [initSys]
  · exact activeTimers_len_le_one cfg p t0 _ hinv
  · intro envs denv fuel
    have hlen := activeTimers_len_le_one cfg p t0 _ hinv
    unfold cyclePublishTotal
    rcases ha : activeTimers (runCalls cfg initSys calls) with _ | ⟨a, rest⟩
    · simp
    rcases rest with _ | ⟨b, rest'⟩
    · simpa using timerPublishCount_le_one cfg hasGraph hasExtractor envs denv fuel
        (runCalls cfg initSys calls).hstate a
    · rw [ha] at hlen
      simp at hlen

/-- C5 witness: three rapid modified notifications for one path at t = 0, 10,
20 with a 50 ms debounce leave exactly one pending handle, three timers of
which at most one is active, every cancellation before its due time, and at
most one published event under concrete collaborator behaviour. -/
theorem C5_debounce_coalescing_witness :
    (∃ j, (runCalls ⟨50, true, false, 300⟩ initSys
        [(0, "note.md", .modified), (10, "note.md", .modified),
         (20, "note.md", .modified)]).hstate.pending = [("note.md", j)]) ∧
    (runCalls ⟨50, true, false, 300⟩ initSys
        [(0, "note.md", .modified), (10, "note.md", .modified),
         (20, "note.md", .modified)]).timers.length = 3 ∧
    (activeTimers (runCalls ⟨50, true, false, 300⟩ initSys
        [(0, "note.md", .modified), (10, "note.md", .modified),
         (20, "note.md", .modified)])).length ≤ 1 ∧
    cyclePublishTotal ⟨50, true, false, 300⟩ false false
      (fun _ => ⟨.content 1, .content 1, .ok 1, .ok 1⟩) ⟨.ok ()⟩ 5
      (runCalls ⟨50, true, false, 300⟩ initSys
        [(0, "note.md", .modified), (10, "note.md", .modified),
         (20, "note.md", .modified)]) ≤ 1 := by
  have h := C5_debounce_coalescing ⟨50, true, false, 300⟩ false false "note.md" 0
    [(0, "note.md", .modified), (10, "note.md", .modified),
     (20, "note.md", .modified)]
    (List.cons_ne_nil _ _) (by decide)
  exact ⟨h.1, h.2.2.1, h.2.2.2.1,
    h.2.2.2.2 (fun _ => ⟨.content 1, .content 1, .ok 1, .ok 1⟩) ⟨.ok ()⟩ 5⟩

end VaultMind
